import Mathlib

/-!
# A verification model of `process.py` (jkbms-merger)

This file gives a shallow embedding, in Lean, of the parts of `process.py`
that the specification's claims are about:

* `parse_timestamp_from_filename` (source lines 12-18): `re.match` of the
  pattern `(\d{14})-\d+\.xlsx?` followed by `datetime.strptime` of the
  captured 14 digits with format `%Y%m%d%H%M%S`.
* `find_continuous_sequences` (source lines 240-275): timestamp extraction,
  a stable sort of `(timestamp, filename)` tuples, and a single gap pass.
* the per-sequence loop of the operative (second) `process_excel_files`
  definition (source lines 296-376), abstracted over the external
  collaborators `safe_read_excel`, `safe_write_excel` and the body of
  `create_voltage_plots`.

Modelling decisions, recorded here once:

* A `datetime` value is represented by its total count of seconds since the
  start of year 1 of the proleptic Gregorian calendar (`toSecs`).  On valid
  calendar values this encoding is strictly monotone in each field, so
  comparison and subtraction of Python `datetime` objects coincide with
  comparison and subtraction of the encodings, which is all the source uses.
* `datetime.strptime(ts, "%Y%m%d%H%M%S")` applied to a 14-digit string:
  the CPython `_strptime` regex gives every directive a 2-digit alternative
  before its 1-digit alternative, and 14 = 4 + 2*5, so the parse succeeds
  exactly when the fixed-width 2-digit split satisfies the per-field ranges
  and the `datetime` constructor accepts the result (any backtracked match
  consumes at most 13 characters and fails the "unconverted data remains"
  check).  The combined success condition is `validDateTime` below; on
  failure `strptime`/`datetime` raise `ValueError`, modelled as `.error ()`.
* `\d` is modelled as the ASCII digit class.
* Exceptions are modelled with `Except Unit`: the source never inspects the
  exception payload on the paths modelled here, it only propagates it.
* `timedelta(hours=q) = q*3600` seconds exactly (for the default `q = 1.1`
  the float-to-microsecond rounding of `timedelta` is exact: 3960 s).
  The tolerance parameter `max_gap_hours` is modelled as a rational.
-/

namespace JkbmsMerger

/-- Decidable equality for `Except`, used to evaluate the model at concrete
inputs. -/
instance {ε β : Type} [DecidableEq ε] [DecidableEq β] : DecidableEq (Except ε β)
  | .ok a, .ok b =>
      if h : a = b then .isTrue (by rw [h]) else .isFalse (by intro hc; cases hc; exact h rfl)
  | .ok _, .error _ => .isFalse (by intro hc; cases hc)
  | .error _, .ok _ => .isFalse (by intro hc; cases hc)
  | .error a, .error b =>
      if h : a = b then .isTrue (by rw [h]) else .isFalse (by intro hc; cases hc; exact h rfl)

/-! ## Calendar arithmetic (the `datetime` model) -/

/-- Proleptic Gregorian leap-year test, as used by `datetime`. -/
def isLeapYear (y : Nat) : Bool :=
  (y % 4 == 0 && y % 100 != 0) || y % 400 == 0

/-- Number of days of month `m` (1-12) of year `y`. -/
def daysInMonth (y m : Nat) : Nat :=
  if m == 2 then (if isLeapYear y then 29 else 28)
  else if m == 4 || m == 6 || m == 9 || m == 11 then 30
  else 31

/-- Days of the proleptic Gregorian calendar strictly before year `y`. -/
def daysBeforeYear (y : Nat) : Nat :=
  365 * (y - 1) + (y - 1) / 4 - (y - 1) / 100 + (y - 1) / 400

/-- Days of year `y` strictly before month `m`. -/
def daysBeforeMonth (y m : Nat) : Nat :=
  (List.range (m - 1)).foldl (fun acc i => acc + daysInMonth y (i + 1)) 0

/-- The `datetime` value `y-m-d h:mi:s` encoded as seconds from the start of
year 1.  Differences and comparisons of `datetime` values coincide with
differences and comparisons of these encodings. -/
def toSecs (y m d h mi s : Nat) : Nat :=
  (((daysBeforeYear y + daysBeforeMonth y m + (d - 1)) * 24 + h) * 60 + mi) * 60 + s

/-- The condition under which `datetime.strptime(ts, "%Y%m%d%H%M%S")`
succeeds on a 14-digit string `ts` with fixed-width fields `y m d h mi s`
(see the header comment): field ranges checked by the `_strptime` regex
2-digit alternatives together with the `datetime` constructor's checks. -/
def validDateTime (y m d h mi s : Nat) : Prop :=
  1 ≤ y ∧ y ≤ 9999 ∧ 1 ≤ m ∧ m ≤ 12 ∧ 1 ≤ d ∧ d ≤ daysInMonth y m ∧
    h ≤ 23 ∧ mi ≤ 59 ∧ s ≤ 59

instance (y m d h mi s : Nat) : Decidable (validDateTime y m d h mi s) := by
  unfold validDateTime; infer_instance

/-- Numeric value of a list of ASCII digit characters (most significant
first), as computed by `int`/`strptime` on the captured groups. -/
def digitsToNat (cs : List Char) : Nat :=
  cs.foldl (fun acc c => 10 * acc + (c.toNat - 48)) 0

/-- `datetime.strptime(ts, "%Y%m%d%H%M%S")` on the 14 captured digit
characters: `some` encoded instant on success, `none` for the raised
`ValueError`. -/
def strptime14 (ts : List Char) : Option Nat :=
  let y := digitsToNat (ts.take 4)
  let m := digitsToNat ((ts.drop 4).take 2)
  let d := digitsToNat ((ts.drop 6).take 2)
  let h := digitsToNat ((ts.drop 8).take 2)
  let mi := digitsToNat ((ts.drop 10).take 2)
  let s := digitsToNat ((ts.drop 12).take 2)
  if validDateTime y m d h mi s then some (toSecs y m d h mi s) else none

/-! ## The filename pattern -/

/-- `re.match(r'(\d{14})-\d+\.xlsx?', filename)`, returning the captured
group `(\d{14})`.  `re.match` anchors at the start of the string only: the
match succeeds whenever some prefix of the input matches, so trailing
characters after `.xls` are accepted.  Because `.` is not a digit, the
greedy `\d+` admits exactly one viable split, the maximal digit run. -/
def reMatchTS (cs : List Char) : Option (List Char) :=
  let ts := cs.take 14
  let rest := cs.drop 14
  if ts.length = 14 ∧ ts.all Char.isDigit then
    match rest with
    | '-' :: r =>
        if r.takeWhile Char.isDigit ≠ [] ∧
            (r.dropWhile Char.isDigit).take 4 = ['.', 'x', 'l', 's'] then
          some ts
        else none
    | _ => none
  else none

/-- Source lines 12-18.  Outcomes: `.ok (some t)` when the pattern matches a
prefix and the 14 digits decode; `.ok none` (Python `None`) when `re.match`
fails; `.error ()` for the `ValueError` that `strptime` raises on invalid
calendar values, which the source does not catch. -/
def parse_timestamp_from_filename (filename : String) : Except Unit (Option Nat) :=
  match reMatchTS filename.data with
  | some ts =>
      match strptime14 ts with
      | some t => .ok (some t)
      | none => .error ()
  | none => .ok none

/-! ## Spec-side pattern predicates

These follow the words of the specification (§4.1): the anchored pattern
`^\d{14}-\d+\.xlsx?$` and its start-anchored-only variant.  They are written
as scanners, independently of `reMatchTS`, to be compared with it. -/

/-- Consume exactly `n` ASCII digits, returning the remainder. -/
def scanDigits : Nat → List Char → Option (List Char)
  | 0, cs => some cs
  | _ + 1, [] => none
  | n + 1, c :: cs => if c.isDigit then scanDigits n cs else none

/-- Consume one or more ASCII digits (`\d+`), returning the remainder. -/
def scanDigitsPlus : List Char → Option (List Char)
  | [] => none
  | c :: cs => if c.isDigit then some (cs.dropWhile Char.isDigit) else none

/-- Modelled from the spec: whether a filename matches the full anchored
pattern `^\d{14}-\d+\.xlsx?$`. -/
def spec_full_match (filename : String) : Bool :=
  match scanDigits 14 filename.data with
  | some ('-' :: r) =>
      match scanDigitsPlus r with
      | some ('.' :: 'x' :: 'l' :: 's' :: r2) => decide (r2 = [] ∨ r2 = ['x'])
      | _ => false
  | _ => false

/-- Modelled from the spec: whether some prefix of the filename matches
`\d{14}-\d+\.xlsx?`, i.e. the pattern anchored at the start only. -/
def spec_prefix_match (filename : String) : Bool :=
  match scanDigits 14 filename.data with
  | some ('-' :: r) =>
      match scanDigitsPlus r with
      | some ('.' :: 'x' :: 'l' :: 's' :: _) => true
      | _ => false
  | _ => false

/-! ## The sequence grouper -/

/-- Lexicographic comparison of strings as lists of code points: Python's
`str` comparison, used by `list.sort()` on the second tuple component. -/
def charListLe : List Char → List Char → Bool
  | [], _ => true
  | _ :: _, [] => false
  | a :: as, b :: bs =>
      if a.toNat < b.toNat then true
      else if b.toNat < a.toNat then false
      else charListLe as bs

/-- Python's tuple comparison on `(timestamp, filename)` pairs: the order
`timestamped_files.sort()` sorts by.  Note it is not "timestamp only": equal
instants are compared by filename. -/
def tupLe (a b : Nat × String) : Prop :=
  a.1 < b.1 ∨ (a.1 = b.1 ∧ charListLe a.2.data b.2.data = true)

instance (a b : Nat × String) : Decidable (tupLe a b) := by
  unfold tupLe; infer_instance

/-- The gap test of source line 268: `current_ts - prev_ts <=
timedelta(hours=max_gap_hours)`, with the instants encoded in seconds. -/
def gap_le (prev cur : Nat) (max_gap_hours : ℚ) : Prop :=
  (cur : ℚ) - (prev : ℚ) ≤ max_gap_hours * 3600

/-- `gap_le` decided by integer cross-multiplication with the tolerance's
reduced numerator and denominator. -/
instance gap_le.instDecidable (prev cur : Nat) (q : ℚ) : Decidable (gap_le prev cur q) :=
  decidable_of_iff (((cur : Int) - (prev : Int)) * (q.den : Int) ≤ q.num * 3600) (by
    have hden : (0 : ℚ) < (q.den : ℚ) := by exact_mod_cast q.den_pos
    have h1 : (q * 3600 : ℚ) = ((q.num : ℚ) * 3600) / (q.den : ℚ) := by
      conv_lhs => rw [← Rat.num_div_den q]
      ring
    rw [gap_le, h1, le_div_iff₀ hden]
    constructor <;> intro h <;> exact_mod_cast h)

/-- The timestamp-extraction loop of source lines 247-251 rendered as the
`filterMap` it computes when no extraction raises: `(ts, f)` for each
filename whose timestamp parses. -/
def parse_ok (f : String) : Option (Nat × String) :=
  match parse_timestamp_from_filename f with
  | .ok (some ts) => some (ts, f)
  | _ => none

/-- The timestamp-extraction loop of source lines 247-251: build the
`timestamped_files` list in input order, skipping filenames whose pattern
does not match; an uncaught `ValueError` aborts the whole loop. -/
def collectTimestamps : List String → Except Unit (List (Nat × String))
  | [] => .ok []
  | f :: fs =>
      match parse_timestamp_from_filename f with
      | .error e => .error e
      | .ok none => collectTimestamps fs
      | .ok (some ts) =>
          match collectTimestamps fs with
          | .error e => .error e
          | .ok rest => .ok ((ts, f) :: rest)

/-- The gap pass of source lines 259-274.  `cur` is `current_sequence`,
`prev` the tuple at index `i - 1`, and the argument list holds the tuples
from index `i` on.  The final `[cur]`/`cur :: _` mirror the trailing
`sequences.append(current_sequence)`. -/
def groupFrom (q : ℚ) (cur : List (Nat × String)) (prev : Nat × String) :
    List (Nat × String) → List (List (Nat × String))
  | [] => [cur]
  | p :: rest =>
      if gap_le prev.1 p.1 q then groupFrom q (cur ++ [p]) p rest
      else cur :: groupFrom q [p] p rest

/-- Source lines 240-275.  `list.sort()` is a stable sort; because the tuple
order `tupLe` is antisymmetric (no two distinct tuples compare equal), every
correct stable sort produces the same list, here `List.insertionSort`. -/
def find_continuous_sequences (files : List String) (max_gap_hours : ℚ) :
    Except Unit (List (List (Nat × String))) :=
  if files.isEmpty then .ok []
  else
    match collectTimestamps files with
    | .error e => .error e
    | .ok timestamped_files =>
        if timestamped_files.isEmpty then .ok []
        else
          match List.insertionSort tupLe timestamped_files with
          | [] => .ok []
          | x :: xs => .ok (groupFrom max_gap_hours [x] x xs)

/-! ## The orchestrator

The operative `process_excel_files` is the second definition in the source
(lines 296-376); it shadows the first.  The external collaborators are
abstracted as oracles: `load f` is the result of `safe_read_excel` on file
`f` (`none` for a caught parse failure, `some` rows otherwise, a loaded
table being its list of rows); `write i df` is the success flag of
`safe_write_excel` for sequence number `i`; `render_body i df` is the
outcome of the body of `create_voltage_plots` (`.error ()` when the body
raises).  Console output is ignored. -/

/-- What the loop of lines 335-372 does with one sequence. -/
inductive SeqOutcome (α : Type) where
  /-- `dfs_to_concat` was empty: diagnostic printed, `continue`. -/
  | skipped : SeqOutcome α
  /-- `safe_write_excel` returned `False`: diagnostic printed, loop goes on. -/
  | writeFailed : SeqOutcome α
  /-- combined table written and plots created. -/
  | written : List α → SeqOutcome α
  /-- combined table written, then `create_voltage_plots` raised: the
  exception escapes the loop (the artifact for this sequence exists). -/
  | renderAborted : List α → SeqOutcome α
deriving DecidableEq

/-- Source lines 22-159 as seen by the caller: the `except` block prints a
diagnostic, closes open figures, and then re-raises (`raise`, line 159), so
the function's outcome equals its body's outcome. -/
def create_voltage_plots (render_body : Except Unit Unit) : Except Unit Unit :=
  match render_body with
  | .ok u => .ok u
  | .error e => .error e

/-- The body of the per-sequence loop, source lines 335-372, for sequence
number `idx`.  Every loaded table counts (`if df is not None`), empty or
not; the sequence is skipped only when `dfs_to_concat` stays empty; the
combined table is the row-wise concatenation `pd.concat`. -/
def process_sequence {α : Type} (load : String → Option (List α))
    (write : Nat → List α → Bool) (render_body : Nat → List α → Except Unit Unit)
    (idx : Nat) (seq : List (Nat × String)) : SeqOutcome α :=
  let dfs_to_concat := seq.filterMap (fun p => load p.2)
  if dfs_to_concat.isEmpty then .skipped
  else
    let combined_df := dfs_to_concat.flatten
    if write idx combined_df then
      match create_voltage_plots (render_body idx combined_df) with
      | .ok _ => .written combined_df
      | .error _ => .renderAborted combined_df
    else .writeFailed

/-- The `for seq_idx, sequence in enumerate(sequences, 1)` loop.  A raised
exception from the render step propagates out of the loop (the top-level
handler prints and re-raises), so later sequences are not processed. -/
def process_sequences {α : Type} (load : String → Option (List α))
    (write : Nat → List α → Bool) (render_body : Nat → List α → Except Unit Unit)
    (idx : Nat) : List (List (Nat × String)) → List (SeqOutcome α)
  | [] => []
  | seq :: rest =>
      match process_sequence load write render_body idx seq with
      | .renderAborted df => [.renderAborted df]
      | o => o :: process_sequences load write render_body (idx + 1) rest

/-- The combined table whose output artifact was written for a sequence
outcome, if any. -/
def artifact_written {α : Type} : SeqOutcome α → Option (List α)
  | .written df => some df
  | .renderAborted df => some df
  | _ => none

/-- The `f.endswith(('.xlsx', '.xls'))` filter of the directory scan. -/
def ends_with_excel (f : String) : Bool :=
  decide (f.data.reverse.take 5 = ['x', 's', 'l', 'x', '.']) ||
    decide (f.data.reverse.take 4 = ['s', 'l', 'x', '.'])

/-- Source lines 296-376, the operative orchestrator, over the oracles plus
the directory state (`input_dir_exists`, `listing`).  Returns the outcomes
of the sequences the loop reached, and whether the run ended by a re-raised
exception (`True`) rather than normally. -/
def process_excel_files {α : Type} (input_dir_exists : Bool) (listing : List String)
    (load : String → Option (List α)) (write : Nat → List α → Bool)
    (render_body : Nat → List α → Except Unit Unit) :
    List (SeqOutcome α) × Bool :=
  if !input_dir_exists then ([], false)
  else
    let excel_files := listing.filter
      (fun f => ends_with_excel f && (reMatchTS f.data).isSome)
    if excel_files.isEmpty then ([], false)
    else
      match find_continuous_sequences excel_files (11 / 10) with
      | .error _ => ([], true)
      | .ok [] => ([], false)
      | .ok seqs =>
          let outcomes := process_sequences load write render_body 1 seqs
          (outcomes, outcomes.any fun o =>
            match o with | .renderAborted _ => true | _ => false)

/-! ## Order facts about the tuple comparison -/

theorem charListLe_total : ∀ a b : List Char, charListLe a b = true ∨ charListLe b a = true
  | [], _ => Or.inl rfl
  | _ :: _, [] => Or.inr rfl
  | x :: xs, y :: ys => by
      rcases Nat.lt_trichotomy x.toNat y.toNat with h | h | h
      · left; simp [charListLe, h]
      · rcases charListLe_total xs ys with ih | ih
        · left; simp [charListLe, h, ih]
        · right; simp [charListLe, h.symm, ih]
      · right; simp [charListLe, h]

theorem charListLe_trans : ∀ a b c : List Char,
    charListLe a b = true → charListLe b c = true → charListLe a c = true
  | [], _, _ => fun _ _ => rfl
  | x :: xs, [], _ => fun hab _ => by simp [charListLe] at hab
  | _ :: _, _ :: _, [] => fun _ hbc => by simp [charListLe] at hbc
  | x :: xs, y :: ys, z :: zs => fun hab hbc => by
      rcases Nat.lt_trichotomy x.toNat y.toNat with h1 | h1 | h1 <;>
        rcases Nat.lt_trichotomy y.toNat z.toNat with h2 | h2 | h2 <;>
          simp_all [charListLe] <;> try omega
      all_goals
        have hxz : x.toNat = z.toNat := by omega
        simp [hxz] at *
        exact charListLe_trans xs ys zs hab hbc

theorem charListLe_antisymm : ∀ a b : List Char,
    charListLe a b = true → charListLe b a = true → a = b
  | [], [] => fun _ _ => rfl
  | [], _ :: _ => fun _ hba => by simp [charListLe] at hba
  | _ :: _, [] => fun hab _ => by simp [charListLe] at hab
  | x :: xs, y :: ys => fun hab hba => by
      rcases Nat.lt_trichotomy x.toNat y.toNat with h | h | h
      · simp [charListLe, h] at hba
        omega
      · have hx : x = y := Char.ext (UInt32.ext h)
        subst hx
        simp [charListLe] at hab hba
        rw [charListLe_antisymm xs ys hab hba]
      · simp [charListLe, h] at hab
        omega

instance : IsTotal (Nat × String) tupLe := ⟨by
  intro a b
  rcases Nat.lt_trichotomy a.1 b.1 with h | h | h
  · exact Or.inl (Or.inl h)
  · rcases charListLe_total a.2.data b.2.data with hc | hc
    · exact Or.inl (Or.inr ⟨h, hc⟩)
    · exact Or.inr (Or.inr ⟨h.symm, hc⟩)
  · exact Or.inr (Or.inl h)⟩

instance : IsTrans (Nat × String) tupLe := ⟨by
  intro a b c hab hbc
  rcases hab with h1 | ⟨e1, c1⟩ <;> rcases hbc with h2 | ⟨e2, c2⟩
  · exact Or.inl (Nat.lt_trans h1 h2)
  · exact Or.inl (e2 ▸ h1)
  · exact Or.inl (by omega)
  · exact Or.inr ⟨e1.trans e2, charListLe_trans _ _ _ c1 c2⟩⟩

instance : IsAntisymm (Nat × String) tupLe := ⟨by
  intro a b hab hba
  rcases hab with h1 | ⟨e1, c1⟩ <;> rcases hba with h2 | ⟨e2, c2⟩ <;> try omega
  have hdata : a.2.data = b.2.data := charListLe_antisymm _ _ c1 c2
  have : a.2 = b.2 := String.ext hdata
  cases a; cases b; simp_all⟩

/-! ## Facts about timestamp collection -/

theorem collect_ok_of_no_error : ∀ files : List String,
    (∀ f ∈ files, parse_timestamp_from_filename f ≠ .error ()) →
    collectTimestamps files = .ok (files.filterMap parse_ok)
  | [], _ => rfl
  | f :: fs, h => by
      have hf := h f (by simp)
      have ih := collect_ok_of_no_error fs (fun g hg => h g (by simp [hg]))
      cases hp : parse_timestamp_from_filename f with
      | error e => cases e; exact absurd hp hf
      | ok o =>
          cases o with
          | none => simp [collectTimestamps, hp, List.filterMap_cons, parse_ok, ih]
          | some ts => simp [collectTimestamps, hp, List.filterMap_cons, parse_ok, ih]

theorem collect_error_of_error : ∀ files : List String,
    (∃ f ∈ files, parse_timestamp_from_filename f = .error ()) →
    collectTimestamps files = .error ()
  | [], h => by simp at h
  | f :: fs, h => by
      cases hp : parse_timestamp_from_filename f with
      | error e => cases e; simp [collectTimestamps, hp]
      | ok o =>
          have hfs : ∃ g ∈ fs, parse_timestamp_from_filename g = .error () := by
            rcases h with ⟨g, hg, hge⟩
            rcases List.mem_cons.mp hg with rfl | hg'
            · rw [hp] at hge; cases hge
            · exact ⟨g, hg', hge⟩
          have ih := collect_error_of_error fs hfs
          cases o <;> simp [collectTimestamps, hp, ih]

theorem collect_ok_elim {files : List String} {tfs : List (Nat × String)}
    (h : collectTimestamps files = .ok tfs) : tfs = files.filterMap parse_ok := by
  by_cases he : ∃ f ∈ files, parse_timestamp_from_filename f = .error ()
  · rw [collect_error_of_error _ he] at h; cases h
  · push_neg at he
    rw [collect_ok_of_no_error _ he] at h
    cases h; rfl

theorem length_filterMap_eq_countP {α β : Type} (g : α → Option β) :
    ∀ l : List α, (l.filterMap g).length = l.countP (fun a => (g a).isSome)
  | [] => rfl
  | a :: l => by
      cases h : g a <;>
        simp [List.filterMap_cons, List.countP_cons, h, length_filterMap_eq_countP g l]

/-! ## Facts about the gap pass -/

theorem groupFrom_flatten (q : ℚ) : ∀ (rest : List (Nat × String)) (cur : List (Nat × String))
    (prev : Nat × String), (groupFrom q cur prev rest).flatten = cur ++ rest
  | [], cur, prev => by simp [groupFrom]
  | p :: rest, cur, prev => by
      rw [groupFrom]
      split
      · rw [groupFrom_flatten q rest (cur ++ [p]) p]; simp
      · show (cur :: groupFrom q [p] p rest).flatten = _
        rw [List.flatten_cons, groupFrom_flatten q rest [p] p]; simp

theorem groupFrom_ne_nil (q : ℚ) : ∀ (rest cur : List (Nat × String)) (prev : Nat × String),
    cur ≠ [] → ∀ s ∈ groupFrom q cur prev rest, s ≠ []
  | [], cur, prev, hc => by simpa [groupFrom] using hc
  | p :: rest, cur, prev, hc => by
      rw [groupFrom]
      split
      · exact groupFrom_ne_nil q rest (cur ++ [p]) p (by simp)
      · intro s hs
        rcases List.mem_cons.mp hs with rfl | hs'
        · exact hc
        · exact groupFrom_ne_nil q rest [p] p (by simp) s hs'

theorem groupFrom_head (q : ℚ) : ∀ (rest cur : List (Nat × String)) (prev : Nat × String),
    cur ≠ [] → ∃ s t, groupFrom q cur prev rest = s :: t ∧ s.head? = cur.head?
  | [], cur, prev, _ => ⟨cur, [], rfl, rfl⟩
  | p :: rest, cur, prev, hc => by
      rw [groupFrom]
      split
      · obtain ⟨s, t, heq, hh⟩ := groupFrom_head q rest (cur ++ [p]) p (by simp)
        refine ⟨s, t, heq, ?_⟩
        rw [hh, List.head?_append]
        cases cur with
        | nil => exact absurd rfl hc
        | cons a l => rfl
      · exact ⟨cur, groupFrom q [p] p rest, rfl, rfl⟩

theorem groupFrom_chains (q : ℚ) : ∀ (rest cur : List (Nat × String)) (prev : Nat × String),
    cur ≠ [] → cur.getLast? = some prev →
    List.Chain' (fun a b => gap_le a.1 b.1 q) cur →
    (∀ s ∈ groupFrom q cur prev rest, List.Chain' (fun a b => gap_le a.1 b.1 q) s) ∧
      List.Chain' (fun s1 s2 => ∀ a ∈ s1.getLast?, ∀ b ∈ s2.head?, ¬ gap_le a.1 b.1 q)
        (groupFrom q cur prev rest)
  | [], cur, prev, _, _, hchain => by
      refine ⟨?_, ?_⟩
      · intro s hs
        rcases List.mem_singleton.mp (by simpa [groupFrom] using hs) with rfl
        exact hchain
      · simp [groupFrom]
  | p :: rest, cur, prev, hc, hlast, hchain => by
      rw [groupFrom]
      split
      · rename_i hgap
        refine groupFrom_chains q rest (cur ++ [p]) p (by simp) (List.getLast?_concat cur) ?_
        refine List.Chain'.append hchain (List.chain'_singleton p) ?_
        intro x hx y hy
        rw [hlast] at hx
        cases hx
        cases hy
        exact hgap
      · rename_i hgap
        have ih := groupFrom_chains q rest [p] p (by simp) rfl (List.chain'_singleton p)
        obtain ⟨s, t, heq, hh⟩ := groupFrom_head q rest [p] p (by simp)
        refine ⟨?_, ?_⟩
        · intro s' hs'
          rcases List.mem_cons.mp hs' with rfl | hs''
          · exact hchain
          · exact ih.1 s' hs''
        · rw [List.chain'_cons']
          refine ⟨?_, ih.2⟩
          intro y hy a ha b hb
          rw [heq] at hy
          cases hy
          rw [hlast] at ha
          cases ha
          rw [hh] at hb
          cases hb
          exact hgap

/-! ## The pattern scanners versus `re.match` -/

theorem scanDigits_eq_some : ∀ (n : Nat) (cs r : List Char),
    scanDigits n cs = some r ↔
      (n ≤ cs.length ∧ (cs.take n).all Char.isDigit = true ∧ r = cs.drop n)
  | 0, cs, r => by simp [scanDigits, eq_comm]
  | n + 1, [], r => by simp [scanDigits]
  | n + 1, c :: cs, r => by
      by_cases hd : c.isDigit
      · simp [scanDigits, hd, scanDigits_eq_some n cs r, Nat.succ_le_succ_iff]
      · simp [scanDigits, hd]

theorem take4_eq_dotxls (l : List Char) :
    l.take 4 = ['.', 'x', 'l', 's'] ↔ ∃ rest, l = '.' :: 'x' :: 'l' :: 's' :: rest := by
  match l with
  | [] => simp
  | [_] => simp
  | [_, _] => simp
  | [_, _, _] => simp
  | a :: b :: c :: d :: rest =>
      simp only [List.take_succ_cons, List.take_zero]
      constructor
      · rintro h
        injection h with h1 h
        injection h with h2 h
        injection h with h3 h
        injection h with h4 _
        exact ⟨rest, by rw [h1, h2, h3, h4]⟩
      · rintro ⟨rest', h⟩
        injection h with h1 h
        injection h with h2 h
        injection h with h3 h
        injection h with h4 _
        rw [h1, h2, h3, h4]

theorem spec_prefix_match_iff (f : String) :
    spec_prefix_match f = true ↔ (reMatchTS f.data).isSome = true := by
  rw [spec_prefix_match, reMatchTS]
  by_cases h14 : 14 ≤ f.data.length ∧ (f.data.take 14).all Char.isDigit = true
  · have hsd : scanDigits 14 f.data = some (f.data.drop 14) :=
      (scanDigits_eq_some 14 f.data (f.data.drop 14)).mpr ⟨h14.1, h14.2, rfl⟩
    have hcond : (f.data.take 14).length = 14 ∧ (f.data.take 14).all Char.isDigit = true := by
      refine ⟨?_, h14.2⟩
      rw [List.length_take]
      omega
    rw [hsd, if_pos hcond]
    cases hdrop : f.data.drop 14 with
    | nil => simp
    | cons c r =>
        by_cases hc : c = '-'
        · subst hc
          cases r with
          | nil => simp [scanDigitsPlus, List.takeWhile_nil]
          | cons c' r' =>
              by_cases hc' : c'.isDigit
              · simp only [scanDigitsPlus, if_pos hc', List.takeWhile_cons, hc',
                  if_true, List.dropWhile_cons]
                constructor
                · intro h
                  split at h
                  · rename_i tail heq
                    injection heq with heq'
                    rw [if_pos ⟨by simp, by rw [heq']; simp⟩]
                    rfl
                  · simp at h
                · intro h
                  split at h
                  · rename_i hcond2
                    obtain ⟨rest', hr⟩ := (take4_eq_dotxls _).mp hcond2.2
                    rw [hr]
                    rfl
                  · simp at h
              · simp [scanDigitsPlus, hc', List.takeWhile_cons]
        · constructor
          · intro h
            split at h
            · rename_i r2 heq
              injection heq with heq'
              injection heq' with hc1 _
              exact absurd hc1 hc
            · simp at h
          · intro h
            split at h
            · rename_i r2 heq
              injection heq with hc1 _
              exact absurd hc1 hc
            · simp at h
  · have hsd : scanDigits 14 f.data = none := by
      cases hsd : scanDigits 14 f.data with
      | none => rfl
      | some r =>
          obtain ⟨h1, h2, _⟩ := (scanDigits_eq_some 14 f.data r).mp hsd
          exact absurd ⟨h1, h2⟩ h14
    have hcond : ¬((f.data.take 14).length = 14 ∧ (f.data.take 14).all Char.isDigit = true) := by
      intro hcon
      refine h14 ⟨?_, hcon.2⟩
      have := hcon.1
      rw [List.length_take] at this
      omega
    rw [hsd, if_neg hcond]
    simp

theorem reMatchTS_eq_take14 {cs ts : List Char} (h : reMatchTS cs = some ts) :
    ts = cs.take 14 := by
  rw [reMatchTS] at h
  split at h
  · split at h
    · split at h
      · cases h; rfl
      · cases h
    · cases h
  · cases h

/-! ## Elimination principle for a successful grouping run -/

theorem find_ok_elim {files : List String} {q : ℚ} {seqs : List (List (Nat × String))}
    (h : find_continuous_sequences files q = .ok seqs) :
    (seqs = [] ∧ (files = [] ∨ files.filterMap parse_ok = [])) ∨
      ∃ x xs, collectTimestamps files = .ok (files.filterMap parse_ok) ∧
        List.insertionSort tupLe (files.filterMap parse_ok) = x :: xs ∧
        seqs = groupFrom q [x] x xs := by
  rw [find_continuous_sequences] at h
  split at h
  · cases h
    exact Or.inl ⟨rfl, Or.inl (List.isEmpty_iff.mp (by assumption))⟩
  · cases hcol : collectTimestamps files with
    | error e => rw [hcol] at h; cases h
    | ok tfs =>
        have htfs := collect_ok_elim hcol
        subst htfs
        rw [hcol] at h
        simp only at h
        split at h
        · cases h
          exact Or.inl ⟨rfl, Or.inr (List.isEmpty_iff.mp (by assumption))⟩
        · cases hsort : List.insertionSort tupLe (files.filterMap parse_ok) with
          | nil =>
              rw [hsort] at h
              cases h
              refine Or.inl ⟨rfl, Or.inr ?_⟩
              have hperm := List.perm_insertionSort tupLe (files.filterMap parse_ok)
              rw [hsort] at hperm
              exact hperm.symm.eq_nil
          | cons x xs =>
              rw [hsort] at h
              cases h
              exact Or.inr ⟨x, xs, rfl, rfl, rfl⟩

/-! ## Claim theorems -/

/-- C1: for every non-empty input collection, the sequences returned by
`find_continuous_sequences` partition the timestamp-parseable subset of the
input: the concatenation of the output sequences is a permutation of the
parseable `(instant, filename)` pairs (so each appears in exactly one
sequence, counted with multiplicity), the sum of the sequence sizes equals
the number of parseable filenames, and no sequence contains a filename not
in the input. -/
theorem find_continuous_sequences_partitions_input (files : List String) (q : ℚ)
    (seqs : List (List (Nat × String))) (hne : files ≠ [])
    (h : find_continuous_sequences files q = .ok seqs) :
    seqs.flatten.Perm (files.filterMap parse_ok) ∧
      (seqs.map List.length).sum = files.countP (fun f => (parse_ok f).isSome) ∧
      (∀ s ∈ seqs, ∀ p ∈ s, p.2 ∈ files) := by
  have hperm : seqs.flatten.Perm (files.filterMap parse_ok) := by
    rcases find_ok_elim h with ⟨rfl, hfe | hfm⟩ | ⟨x, xs, _, hsort, rfl⟩
    · exact absurd hfe hne
    · simp [hfm]
    · rw [groupFrom_flatten]
      have hps := List.perm_insertionSort tupLe (files.filterMap parse_ok)
      rw [hsort] at hps
      simpa using hps
  refine ⟨hperm, ?_, ?_⟩
  · rw [← length_filterMap_eq_countP, ← hperm.length_eq, List.length_flatten]
  · intro s hs p hp
    have hmem : p ∈ files.filterMap parse_ok :=
      hperm.subset (List.mem_flatten.mpr ⟨s, hs, hp⟩)
    obtain ⟨g, hg, hgp⟩ := List.mem_filterMap.mp hmem
    rw [parse_ok] at hgp
    split at hgp
    · cases hgp; exact hg
    · cases hgp

theorem find_continuous_sequences_partitions_input_witness :
    (["20240101090000-0.xlsx"] : List String) ≠ [] ∧
      find_continuous_sequences ["20240101090000-0.xlsx"] 1 =
        .ok [[(toSecs 2024 1 1 9 0 0, "20240101090000-0.xlsx")]] ∧
      ([[(toSecs 2024 1 1 9 0 0, "20240101090000-0.xlsx")]] :
          List (List (Nat × String))).flatten.Perm
        (["20240101090000-0.xlsx"].filterMap parse_ok) :=
  ⟨by simp, by rfl,
    (find_continuous_sequences_partitions_input ["20240101090000-0.xlsx"] 1
      [[(toSecs 2024 1 1 9 0 0, "20240101090000-0.xlsx")]] (by simp) (by rfl)).1⟩

/-- C2: in the output of `find_continuous_sequences`, every pair of
consecutive elements within one sequence satisfies the gap test
`gap_le _ _ q` (instant difference at most `max_gap_hours` hours, default
1.1), and at every boundary between two successive sequences the difference
between the last instant of the earlier sequence and the first instant of
the later one strictly exceeds `max_gap_hours` hours; all output sequences
are non-empty. -/
theorem find_continuous_sequences_gap_bounds (files : List String) (q : ℚ)
    (seqs : List (List (Nat × String))) (h : find_continuous_sequences files q = .ok seqs) :
    (∀ s ∈ seqs, List.Chain' (fun a b => gap_le a.1 b.1 q) s) ∧
      List.Chain' (fun s1 s2 => ∀ a ∈ s1.getLast?, ∀ b ∈ s2.head?,
        q * 3600 < (b.1 : ℚ) - (a.1 : ℚ)) seqs ∧
      (∀ s ∈ seqs, s ≠ []) := by
  rcases find_ok_elim h with ⟨rfl, _⟩ | ⟨x, xs, _, hsort, rfl⟩
  · exact ⟨by simp, List.chain'_nil, by simp⟩
  · have hch := groupFrom_chains q xs [x] x (by simp) rfl (List.chain'_singleton x)
    refine ⟨hch.1, ?_, groupFrom_ne_nil q xs [x] x (by simp)⟩
    refine hch.2.imp ?_
    intro s1 s2 h12 a ha b hb
    have := h12 a ha b hb
    rw [gap_le] at this
    exact lt_of_not_le this

theorem find_continuous_sequences_gap_bounds_witness :
    find_continuous_sequences
        ["20240101090000-00.xlsx", "20240101100000-00.xlsx", "20240101123000-00.xlsx"] 1 =
      .ok [[(toSecs 2024 1 1 9 0 0, "20240101090000-00.xlsx"),
            (toSecs 2024 1 1 10 0 0, "20240101100000-00.xlsx")],
           [(toSecs 2024 1 1 12 30 0, "20240101123000-00.xlsx")]] ∧
    (∀ s ∈ [[(toSecs 2024 1 1 9 0 0, "20240101090000-00.xlsx"),
             (toSecs 2024 1 1 10 0 0, "20240101100000-00.xlsx")],
            [(toSecs 2024 1 1 12 30 0, "20240101123000-00.xlsx")]],
      List.Chain' (fun a b => gap_le a.1 b.1 1) s) :=
  ⟨by rfl,
    (find_continuous_sequences_gap_bounds
      ["20240101090000-00.xlsx", "20240101100000-00.xlsx", "20240101123000-00.xlsx"] 1
      _ (by rfl)).1⟩

/-- C3 counterexample: two filenames decoding to the same capture instant,
given in the input in descending filename order, are reordered by
`find_continuous_sequences` into ascending filename order — the sort
compares `(timestamp, filename)` tuples, so ties on the instant are *not*
kept in input order, refuting the claim at this input. -/
theorem equal_instants_reordered_by_filename :
    parse_timestamp_from_filename "20240101000000-2.xlsx" =
        .ok (some (toSecs 2024 1 1 0 0 0)) ∧
      parse_timestamp_from_filename "20240101000000-1.xlsx" =
        .ok (some (toSecs 2024 1 1 0 0 0)) ∧
      find_continuous_sequences ["20240101000000-2.xlsx", "20240101000000-1.xlsx"] 1 =
        .ok [[(toSecs 2024 1 1 0 0 0, "20240101000000-1.xlsx"),
              (toSecs 2024 1 1 0 0 0, "20240101000000-2.xlsx")]] ∧
      find_continuous_sequences ["20240101000000-2.xlsx", "20240101000000-1.xlsx"] 1 ≠
        .ok [[(toSecs 2024 1 1 0 0 0, "20240101000000-2.xlsx"),
              (toSecs 2024 1 1 0 0 0, "20240101000000-1.xlsx")]] :=
  ⟨rfl, rfl, rfl, by decide⟩

/-- C3 amended: files decoding to equal capture instants appear within the
output of `find_continuous_sequences` ordered by ascending filename (string
comparison), because the sort key is the whole `(instant, filename)` tuple;
input order is preserved only for identical tuples. -/
theorem find_continuous_sequences_ties_filename_order (files : List String) (q : ℚ)
    (seqs : List (List (Nat × String))) (h : find_continuous_sequences files q = .ok seqs) :
    seqs.flatten.Pairwise (fun a b => a.1 = b.1 → charListLe a.2.data b.2.data = true) := by
  rcases find_ok_elim h with ⟨rfl, _⟩ | ⟨x, xs, _, hsort, rfl⟩
  · simp
  · rw [groupFrom_flatten]
    have hsorted : List.Sorted tupLe (x :: xs) := by
      rw [← hsort]; exact List.sorted_insertionSort tupLe _
    have hx : ([x] ++ xs : List (Nat × String)) = x :: xs := rfl
    rw [hx]
    refine hsorted.imp ?_
    intro a b hab heq
    rcases hab with hlt | ⟨_, hle⟩
    · omega
    · exact hle

theorem find_continuous_sequences_ties_filename_order_witness :
    find_continuous_sequences ["20240101000000-2.xlsx", "20240101000000-1.xlsx"] 1 =
      .ok [[(toSecs 2024 1 1 0 0 0, "20240101000000-1.xlsx"),
            (toSecs 2024 1 1 0 0 0, "20240101000000-2.xlsx")]] ∧
    ([[(toSecs 2024 1 1 0 0 0, "20240101000000-1.xlsx"),
       (toSecs 2024 1 1 0 0 0, "20240101000000-2.xlsx")]] :
        List (List (Nat × String))).flatten.Pairwise
      (fun a b => a.1 = b.1 → charListLe a.2.data b.2.data = true) :=
  ⟨by rfl,
    find_continuous_sequences_ties_filename_order
      ["20240101000000-2.xlsx", "20240101000000-1.xlsx"] 1 _ (by rfl)⟩

/-- C4: `find_continuous_sequences` is invariant under permutation of its
input collection — any permutation of the input produces exactly the same
result (same sequences, same membership, same order), because the sort key
is a total order on the tuples; an input containing a filename that makes
timestamp extraction raise produces the same raised error either way. -/
theorem find_continuous_sequences_perm_invariant (l1 l2 : List String) (q : ℚ)
    (h : l1.Perm l2) :
    find_continuous_sequences l1 q = find_continuous_sequences l2 q := by
  by_cases h1 : l1.isEmpty
  · have e1 : l1 = [] := List.isEmpty_iff.mp h1
    subst e1
    have e2 : l2 = [] := (h.symm).eq_nil
    subst e2
    rfl
  · have h2 : ¬l2.isEmpty = true := by
      intro hh
      have e2 := List.isEmpty_iff.mp hh
      subst e2
      exact h1 (List.isEmpty_iff.mpr h.eq_nil)
    by_cases herr : ∃ f ∈ l1, parse_timestamp_from_filename f = .error ()
    · obtain ⟨f, hf, hfe⟩ := herr
      have herr2 : ∃ g ∈ l2, parse_timestamp_from_filename g = .error () :=
        ⟨f, h.subset hf, hfe⟩
      simp only [find_continuous_sequences]
      rw [if_neg h1, if_neg h2, collect_error_of_error l1 ⟨f, hf, hfe⟩,
        collect_error_of_error l2 herr2]
    · have herr2 : ¬∃ g ∈ l2, parse_timestamp_from_filename g = .error () := by
        rintro ⟨g, hg, hge⟩
        exact herr ⟨g, h.symm.subset hg, hge⟩
      push_neg at herr herr2
      have hok1 := collect_ok_of_no_error l1 herr
      have hok2 := collect_ok_of_no_error l2 herr2
      have hfm : (l1.filterMap parse_ok).Perm (l2.filterMap parse_ok) :=
        h.filterMap parse_ok
      have hsort : List.insertionSort tupLe (l1.filterMap parse_ok) =
          List.insertionSort tupLe (l2.filterMap parse_ok) :=
        List.eq_of_perm_of_sorted
          ((List.perm_insertionSort tupLe _).trans
            (hfm.trans (List.perm_insertionSort tupLe _).symm))
          (List.sorted_insertionSort tupLe _) (List.sorted_insertionSort tupLe _)
      simp only [find_continuous_sequences]
      rw [if_neg h1, if_neg h2, hok1, hok2]
      simp only
      by_cases hfm1 : (l1.filterMap parse_ok).isEmpty
      · have hfm2 : (l2.filterMap parse_ok).isEmpty = true := by
          rw [List.isEmpty_iff] at hfm1 ⊢
          rw [hfm1] at hfm
          exact hfm.symm.eq_nil
        rw [if_pos hfm1, if_pos hfm2]
      · have hfm2 : ¬(l2.filterMap parse_ok).isEmpty = true := by
          intro hh
          rw [List.isEmpty_iff] at hh
          rw [hh] at hfm
          exact hfm1 (List.isEmpty_iff.mpr hfm.eq_nil)
        rw [if_neg hfm1, if_neg hfm2, hsort]

theorem find_continuous_sequences_perm_invariant_witness :
    (["20240101100000-0.xlsx", "20240101090000-0.xlsx"] : List String).Perm
        ["20240101090000-0.xlsx", "20240101100000-0.xlsx"] ∧
      find_continuous_sequences ["20240101100000-0.xlsx", "20240101090000-0.xlsx"] 1 =
        find_continuous_sequences ["20240101090000-0.xlsx", "20240101100000-0.xlsx"] 1 :=
  ⟨by decide,
    find_continuous_sequences_perm_invariant
      ["20240101100000-0.xlsx", "20240101090000-0.xlsx"]
      ["20240101090000-0.xlsx", "20240101100000-0.xlsx"] 1 (by decide)⟩

/-- C5 counterexample: a filename with extra characters after the extension
does not match the full anchored pattern `^\d{14}-\d+\.xlsx?$`, yet
`parse_timestamp_from_filename` still returns its capture instant, because
`re.match` anchors at the start of the string only — refuting the claimed
"if and only if the whole string matches". -/
theorem parse_timestamp_accepts_trailing_junk :
    spec_full_match "20240101000000-0.xlsx.bak" = false ∧
      parse_timestamp_from_filename "20240101000000-0.xlsx.bak" =
        .ok (some (toSecs 2024 1 1 0 0 0)) :=
  ⟨rfl, rfl⟩

/-- C5 amended: `parse_timestamp_from_filename` returns a capture instant
iff a *prefix* of the string matches `\d{14}-\d+\.xlsx?` (anchored at the
start only; trailing characters are allowed) and the 14 digits decode to a
valid calendar value; and it yields "no timestamp" exactly when no prefix
matches (when a prefix matches but the digits are invalid it raises
instead). -/
theorem parse_timestamp_prefix_characterization (f : String) :
    ((∃ t, parse_timestamp_from_filename f = .ok (some t)) ↔
        (spec_prefix_match f = true ∧ (strptime14 (f.data.take 14)).isSome = true)) ∧
      (parse_timestamp_from_filename f = .ok none ↔ spec_prefix_match f = false) := by
  cases hm : reMatchTS f.data with
  | none =>
      have hp : spec_prefix_match f = false := by
        have hiff := spec_prefix_match_iff f
        rw [hm] at hiff
        simpa using hiff
      simp only [parse_timestamp_from_filename, hm]
      constructor
      · constructor
        · rintro ⟨t, ht⟩
          exact absurd ht (by simp)
        · rintro ⟨hsp, _⟩
          rw [hp] at hsp
          cases hsp
      · exact ⟨fun _ => hp, fun _ => by trivial⟩
  | some ts =>
      have hts : ts = f.data.take 14 := reMatchTS_eq_take14 hm
      subst hts
      have hp : spec_prefix_match f = true :=
        (spec_prefix_match_iff f).mpr (by simp [hm])
      cases hst : strptime14 (f.data.take 14) with
      | none =>
          simp only [parse_timestamp_from_filename, hm, hst]
          constructor
          · constructor
            · rintro ⟨t, ht⟩
              exact absurd ht (by simp)
            · rintro ⟨_, hsome⟩
              simp at hsome
          · constructor
            · intro hok
              exact absurd hok (by simp)
            · intro hfalse
              rw [hp] at hfalse
              cases hfalse
      | some t =>
          simp only [parse_timestamp_from_filename, hm, hst]
          constructor
          · constructor
            · intro _
              exact ⟨hp, rfl⟩
            · intro _
              exact ⟨t, rfl⟩
          · constructor
            · intro hok
              exact absurd hok (by simp)
            · intro hfalse
              rw [hp] at hfalse
              cases hfalse

/-- C6: the claim describes the intended `MalformedTimestamp` handling, but
the code does not implement it: on a filename whose 14 digits are an
invalid calendar value (month 13), `strptime` raises a `ValueError` that
neither `parse_timestamp_from_filename` nor `find_continuous_sequences`
catches, so the whole grouping run errors out instead of skipping the file
— even when other perfectly valid files are present. -/
theorem malformed_timestamp_aborts_run :
    parse_timestamp_from_filename "20241301000000-0.xlsx" = .error () ∧
      find_continuous_sequences ["20241301000000-0.xlsx", "20240101000000-0.xlsx"] 1 =
        .error () :=
  ⟨rfl, rfl⟩

/-- C7: `find_continuous_sequences` on an empty collection returns the
empty list of sequences (`.ok []`, not an error), and on any collection
whose timestamp-extraction pass yields exactly one pair it returns exactly
one singleton sequence holding that pair. -/
theorem find_continuous_sequences_empty_and_singleton (q : ℚ) :
    find_continuous_sequences [] q = .ok [] ∧
      ∀ (files : List String) (t : Nat) (f : String),
        collectTimestamps files = .ok [(t, f)] →
        find_continuous_sequences files q = .ok [[(t, f)]] := by
  refine ⟨rfl, ?_⟩
  intro files t f h
  cases files with
  | nil => simp [collectTimestamps] at h
  | cons g gs =>
      simp only [find_continuous_sequences]
      rw [if_neg (by simp), h]
      simp only
      rw [if_neg (by simp)]
      rfl

theorem find_continuous_sequences_empty_and_singleton_witness :
    collectTimestamps ["20240101090000-0.xlsx"] =
        .ok [(toSecs 2024 1 1 9 0 0, "20240101090000-0.xlsx")] ∧
      find_continuous_sequences [] (1 : ℚ) = .ok [] ∧
      find_continuous_sequences ["20240101090000-0.xlsx"] 1 =
        .ok [[(toSecs 2024 1 1 9 0 0, "20240101090000-0.xlsx")]] :=
  ⟨rfl, (find_continuous_sequences_empty_and_singleton 1).1,
    (find_continuous_sequences_empty_and_singleton 1).2
      ["20240101090000-0.xlsx"] (toSecs 2024 1 1 9 0 0) "20240101090000-0.xlsx" rfl⟩

/-- C8: a sequence all of whose member files fail to load (`safe_read_excel`
returns `None` for each) is skipped: no output artifact is produced for it
(the `skipped` outcome carries no written table), and the loop goes on to
process the remaining sequences exactly as it would have. -/
theorem process_sequences_skip_and_continue {α : Type} (load : String → Option (List α))
    (write : Nat → List α → Bool) (render_body : Nat → List α → Except Unit Unit)
    (idx : Nat) (seq : List (Nat × String)) (rest : List (List (Nat × String)))
    (h : ∀ p ∈ seq, load p.2 = none) :
    process_sequence load write render_body idx seq = .skipped ∧
      artifact_written (process_sequence load write render_body idx seq) = none ∧
      process_sequences load write render_body idx (seq :: rest) =
        .skipped :: process_sequences load write render_body (idx + 1) rest := by
  have hdfs : seq.filterMap (fun p => load p.2) = [] := List.filterMap_eq_nil_iff.mpr h
  have hone : process_sequence load write render_body idx seq = .skipped := by
    simp [process_sequence, hdfs]
  exact ⟨hone, by rw [hone]; rfl, by simp [process_sequences, hone]⟩

theorem process_sequences_skip_and_continue_witness :
    (∀ p ∈ ([(0, "a.xlsx")] : List (Nat × String)),
        (fun _ : String => (none : Option (List Nat))) p.2 = none) ∧
      process_sequences (fun _ : String => (none : Option (List Nat))) (fun _ _ => true)
        (fun _ _ => .ok ()) 1 [[(0, "a.xlsx")]] = [.skipped] := by
  refine ⟨by simp, ?_⟩
  have h := (process_sequences_skip_and_continue
    (fun _ : String => (none : Option (List Nat))) (fun _ _ => true) (fun _ _ => .ok ())
    1 [(0, "a.xlsx")] [] (by simp)).2.2
  simpa using h

/-- C9 counterexample: a failure inside the visualization step is *not*
confined to its own scope — `create_voltage_plots` re-raises after its
diagnostic, so the loop stops: with two sequences whose files all load and
write fine but whose render body raises, only the first sequence is
processed (its artifact stays written), refuting "does not abort the run
... and processing of the remaining sequences continues". -/
theorem render_failure_aborts_remaining :
    process_sequences (fun _ : String => some [0]) (fun _ _ => true) (fun _ _ => .error ())
        1 [[(0, "a.xlsx")], [(3600, "b.xlsx")]] = [.renderAborted [0]] ∧
      (process_sequences (fun _ : String => some [0]) (fun _ _ => true) (fun _ _ => .error ())
        1 [[(0, "a.xlsx")], [(3600, "b.xlsx")]]).length ≠ 2 :=
  ⟨by decide, by decide⟩

/-- C9 amended: when a sequence's combined table has been written
successfully and the visualization body then raises, the exception is
re-raised by `create_voltage_plots` and propagates: the sequence's artifact
remains written (the outcome records the written table), but the run aborts
and the remaining sequences are not processed. -/
theorem process_sequences_render_abort {α : Type} (load : String → Option (List α))
    (write : Nat → List α → Bool) (render_body : Nat → List α → Except Unit Unit)
    (idx : Nat) (seq : List (Nat × String)) (rest : List (List (Nat × String)))
    (hne : seq.filterMap (fun p => load p.2) ≠ [])
    (hw : write idx (seq.filterMap (fun p => load p.2)).flatten = true)
    (hr : render_body idx (seq.filterMap (fun p => load p.2)).flatten = .error ()) :
    process_sequences load write render_body idx (seq :: rest) =
        [.renderAborted (seq.filterMap (fun p => load p.2)).flatten] ∧
      artifact_written
          (.renderAborted (seq.filterMap (fun p => load p.2)).flatten : SeqOutcome α) =
        some (seq.filterMap (fun p => load p.2)).flatten := by
  have hone : process_sequence load write render_body idx seq =
      .renderAborted (seq.filterMap (fun p => load p.2)).flatten := by
    simp [process_sequence, hne, hw, hr, create_voltage_plots, List.isEmpty_iff]
  exact ⟨by simp [process_sequences, hone], rfl⟩

theorem process_sequences_render_abort_witness :
    ([(0, "a.xlsx")] : List (Nat × String)).filterMap
        (fun p => (fun _ : String => some [0]) p.2) ≠ [] ∧
      process_sequences (fun _ : String => some [0]) (fun _ _ => true) (fun _ _ => .error ())
        1 [[(0, "a.xlsx")], [(3600, "b.xlsx")]] = [.renderAborted [0]] := by
  refine ⟨by decide, ?_⟩
  have h := (process_sequences_render_abort (fun _ : String => some [0]) (fun _ _ => true)
    (fun _ _ => .error ()) 1 [(0, "a.xlsx")] [[(3600, "b.xlsx")]]
    (by decide) (by decide) (by decide)).1
  simpa using h

/-- C10: in the operative orchestrator, a sequence whose member files all
load successfully but as empty tables is *not* skipped: every loaded table
counts (`if df is not None`), the concatenation is the empty combined
table, it is passed to the writer, and an output artifact is written for
the sequence. -/
theorem process_sequence_writes_empty_tables {α : Type} (load : String → Option (List α))
    (write : Nat → List α → Bool) (render_body : Nat → List α → Except Unit Unit)
    (idx : Nat) (seq : List (Nat × String)) (hseq : seq ≠ [])
    (hload : ∀ p ∈ seq, load p.2 = some ([] : List α))
    (hw : write idx ([] : List α) = true) :
    artifact_written (process_sequence load write render_body idx seq) =
      some ([] : List α) := by
  have hdfs0 : ∀ l : List (Nat × String), (∀ p ∈ l, load p.2 = some ([] : List α)) →
      l.filterMap (fun p => load p.2) = l.map (fun _ => ([] : List α)) := fun l => by
    induction l with
    | nil => intro _; rfl
    | cons p ps ih =>
        intro hl
        have h1 : load p.2 = some ([] : List α) := hl p (by simp)
        have h2 := ih (fun p' hp' => hl p' (by simp [hp']))
        simp only [List.filterMap_cons, h1, List.map_cons]
        rw [h2]
  have hdfs := hdfs0 seq hload
  have hflat0 : ∀ l : List (Nat × String), (l.map (fun _ => ([] : List α))).flatten = [] :=
    fun l => by
      induction l with
      | nil => rfl
      | cons p ps ih =>
          simp only [List.map_cons, List.flatten_cons, List.nil_append]
          exact ih
  have hflat := hflat0 seq
  have hne : (seq.map (fun _ => ([] : List α))).isEmpty = false := by
    cases seq with
    | nil => exact absurd rfl hseq
    | cons _ _ => rfl
  simp only [process_sequence, hdfs, hflat, hne, Bool.false_eq_true, if_false, hw, if_true]
  cases hcv : create_voltage_plots (render_body idx ([] : List α)) with
  | ok u => simp [hcv, artifact_written]
  | error e => simp [hcv, artifact_written]

theorem process_sequence_writes_empty_tables_witness :
    ([(0, "a.xlsx")] : List (Nat × String)) ≠ [] ∧
      (∀ p ∈ ([(0, "a.xlsx")] : List (Nat × String)),
        (fun _ : String => some ([] : List Nat)) p.2 = some []) ∧
      artifact_written (process_sequence (fun _ : String => some ([] : List Nat))
        (fun _ _ => true) (fun _ _ => .ok ()) 1 [(0, "a.xlsx")]) = some [] :=
  ⟨by simp, by simp,
    process_sequence_writes_empty_tables (fun _ : String => some ([] : List Nat))
      (fun _ _ => true) (fun _ _ => .ok ()) 1 [(0, "a.xlsx")] (by simp) (by simp) rfl⟩

end JkbmsMerger
